import Mathlib

/-!
Verification of the depatrack offline-first sync engine
(`stores/properties.ts` sync-enabled revision, `services/storage.ts`
sync-enabled revision, `types/property.ts`).

The TypeScript is embedded shallowly:

* A JS `Map<string, Property>` keyed by `uuid` is embedded as a
  `List Property` in insertion order with at most one entry per `uuid`;
  `mapSet` is `Map.prototype.set` (replace in place on an existing key,
  append on a fresh key) and `mapGet` is `Map.prototype.get`.
  `Array.from(map.values())` is then the list itself.
* JS `Date` values are compared numerically by the source
  (`prop.updatedAt > existing.updatedAt`), so timestamps are embedded as
  `Int` milliseconds.
* JS `number` prices are embedded as `Rat` (the source only adds and
  divides them).
* Remote calls that may reject are modelled by success flags in a
  `FirebaseEnv`; the `try`/`catch` of `syncWithFirebase` becomes an
  `Except` whose error branch returns the untouched store state.
-/

inductive PropertyStatus where
  | available
  | contacted
  | scheduled
  | visited
  | negotiating
  | in_queue
  | evaluating
  | applying
  | documents_pending
  | approved
  | rejected
  | occupied
  | over_budget
  | not_interested
deriving DecidableEq, Repr

/-- `Property` from `types/property.ts`.  Optional string fields default to
`''` in the store (`formData.comments || ''` etc.), so they are plain
`String`s here; `appointmentDate` may be `undefined`. -/
structure Property where
  id : String
  uuid : String
  zone : String
  price : Rat
  status : PropertyStatus
  requirements : List String
  comments : String
  link : String
  location : String
  whatsapp : String
  realEstate : String
  appointmentDate : Option Int
  isCalendarScheduled : Bool
  createdAt : Int
  updatedAt : Int
deriving DecidableEq, Repr

/-- `DeletedPropertyRecord` from `types/property.ts`. -/
structure DeletedPropertyRecord where
  uuid : String
  deletedAt : Int
  deviceId : String
deriving DecidableEq, Repr

/-- `PropertyStats` from `types/property.ts`. -/
structure PropertyStats where
  total : Nat
  available : Nat
  active : Nat
  completed : Nat
  rejected : Nat
  averagePrice : Rat
deriving DecidableEq, Repr

/-- `Map.prototype.get` on a uuid-keyed map embedded as a list. -/
def mapGet (m : List Property) (u : String) : Option Property :=
  match m with
  | [] => none
  | p :: rest => if p.uuid = u then some p else mapGet rest u

/-- `Map.prototype.set` on a uuid-keyed map embedded as a list: replace the
entry holding the key in place, or append a fresh key at the end. -/
def mapSet (m : List Property) (p : Property) : List Property :=
  match m with
  | [] => [p]
  | q :: rest => if q.uuid = p.uuid then p :: rest else q :: mapSet rest p

/-- `new Map(props.map(p => [p.uuid, p]))`, and equally a
`forEach(p => map.set(p.uuid, p))` loop over an empty map: entries are set
in list order, a later duplicate uuid overwriting an earlier one. -/
def snapshotMap (props : List Property) : List Property :=
  props.foldl mapSet []

/-- The body of the remote `forEach` of `mergeProperties`: insert a remote
record absent from the map, replace the existing entry only when the remote
`updatedAt` is strictly greater (`!existing || prop.updatedAt >
existing.updatedAt`). -/
def mergeStep (merged : List Property) (prop : Property) : List Property :=
  match mapGet merged prop.uuid with
  | none => mapSet merged prop
  | some existing =>
      if prop.updatedAt > existing.updatedAt then mapSet merged prop else merged

/-- `mergeProperties(localProps, firebaseProps)` from the properties store:
seed a uuid-keyed map with every local record, then fold `mergeStep` over
the remote records; `Array.from(merged.values())` is the resulting list. -/
def mergeProperties (localProps firebaseProps : List Property) : List Property :=
  firebaseProps.foldl mergeStep (snapshotMap localProps)

/-- `applyFirebaseDeletions(properties, deletedRecords)`: drop every record
whose uuid occurs among the deletion records. -/
def applyFirebaseDeletions (properties : List Property)
    (deletedRecords : List DeletedPropertyRecord) : List Property :=
  let deletedUuids := deletedRecords.map (fun d => d.uuid)
  properties.filter (fun prop => decide (prop.uuid ∉ deletedUuids))

/-- Result record of `identifyLocalChanges`. -/
structure LocalChanges where
  newLocal : List Property
  updatedLocal : List Property
  deletedLocal : List String
deriving DecidableEq, Repr

/-- The body of the second `forEach` of `identifyLocalChanges`: a record of
`localBeforeSync` absent from the after-map and not yet listed is pushed
onto `deletedLocal`. -/
def deletedStep (localAfterMap : List Property) (acc : List String)
    (prop : Property) : List String :=
  if mapGet localAfterMap prop.uuid = none ∧ prop.uuid ∉ acc
  then acc ++ [prop.uuid] else acc

/-- `identifyLocalChanges(localBeforeSync, localAfterSync, localDeletedUuids)`
from the properties store.  The source pushes into `newLocal` and
`updatedLocal` in one pass over `localAfterSync`; the two filters below
produce the same two lists in the same order. -/
def identifyLocalChanges (localBeforeSync localAfterSync : List Property)
    (localDeletedUuids : List String) : LocalChanges :=
  let localBeforeMap := snapshotMap localBeforeSync
  let localAfterMap := snapshotMap localAfterSync
  let newLocal := localAfterSync.filter (fun prop =>
    decide (mapGet localBeforeMap prop.uuid = none))
  let updatedLocal := localAfterSync.filter (fun prop =>
    match mapGet localBeforeMap prop.uuid with
    | none => false
    | some existing => decide (prop.updatedAt > existing.updatedAt))
  let deletedLocal :=
    localBeforeSync.foldl (deletedStep localAfterMap) localDeletedUuids
  ⟨newLocal, updatedLocal, deletedLocal⟩

def activeStatusList : List PropertyStatus :=
  [.contacted, .scheduled, .visited, .negotiating, .in_queue, .evaluating,
   .applying, .documents_pending]

def completedStatusList : List PropertyStatus := [.approved, .occupied]

def rejectedStatusList : List PropertyStatus :=
  [.rejected, .over_budget, .not_interested]

/-- The `stats` computed value of the properties store: counts by status
group, and `averagePrice` is the price sum divided by the count, guarded by
`total > 0` (otherwise `0`). -/
def stats (properties : List Property) : PropertyStats :=
  let total := properties.length
  let available := (properties.filter (fun p =>
    decide (p.status = PropertyStatus.available))).length
  let active := (properties.filter (fun p =>
    decide (p.status ∈ activeStatusList))).length
  let completed := (properties.filter (fun p =>
    decide (p.status ∈ completedStatusList))).length
  let rejected := (properties.filter (fun p =>
    decide (p.status ∈ rejectedStatusList))).length
  let averagePrice : Rat :=
    if total > 0
    then (properties.foldl (fun sum p => sum + p.price) 0) / (total : Rat)
    else 0
  { total := total, available := available, active := active,
    completed := completed, rejected := rejected, averagePrice := averagePrice }

/-- The store state the sync engine reads and writes: the in-memory
`properties` ref, the localStorage record list, the pending deleted-uuid
(tombstone) list, the `lastSyncTime` ref and the subscription flag. -/
structure StoreState where
  properties : List Property
  storage : List Property
  deletedUuids : List String
  lastSyncTime : Option Int
  subscribed : Bool
deriving DecidableEq, Repr

/-- One sync pass's remote world: what the pulls would return, and whether
each remote call resolves (`true`) or rejects (`false`). -/
structure FirebaseEnv where
  remoteProperties : List Property
  remoteDeleted : List DeletedPropertyRecord
  pullPropertiesOk : Bool
  pullDeletedOk : Bool
  batchCreateOk : Bool
  batchUpdateOk : Bool
  batchDeleteOk : Bool
deriving DecidableEq, Repr

deriving instance DecidableEq for Except

/-- `StorageService.importProperties` keeps only records with a truthy `id`
and `zone` (`p.id && p.zone && typeof p.price === 'number'`; prices are
always numbers in the model). -/
def importPropertiesValid (properties : List Property) : List Property :=
  properties.filter (fun p => decide (p.id ≠ "" ∧ p.zone ≠ ""))

/-- Step 2 of `syncWithFirebase`: `applyFirebaseDeletions(mergeProperties(
localProperties, firebaseProperties), firebaseDeletedRecords)`. -/
def syncFinalProperties (s : StoreState) (env : FirebaseEnv) : List Property :=
  applyFirebaseDeletions (mergeProperties s.storage env.remoteProperties)
    env.remoteDeleted

/-- Step 3 of `syncWithFirebase`: the diff is invoked as
`identifyLocalChanges(localProperties, finalProperties, localDeletedUuids)`,
i.e. against the reconciled `finalProperties`. -/
def syncChanges (s : StoreState) (env : FirebaseEnv) : LocalChanges :=
  identifyLocalChanges s.storage (syncFinalProperties s env) s.deletedUuids

/-- Whether some remote call actually awaited during the pass rejects: the
two pulls always run; each batch push runs only when its list is
non-empty. -/
def syncThrows (s : StoreState) (env : FirebaseEnv) : Bool :=
  !env.pullPropertiesOk || !env.pullDeletedOk ||
  (!(syncChanges s env).newLocal.isEmpty && !env.batchCreateOk) ||
  (!(syncChanges s env).updatedLocal.isEmpty && !env.batchUpdateOk) ||
  (!(syncChanges s env).deletedLocal.isEmpty && !env.batchDeleteOk)

/-- The `try` block of `syncWithFirebase` (authenticated, online): pull,
merge, diff, push; only after every remote call has resolved does step 5
overwrite the in-memory list and localStorage with `finalProperties`,
clear the pending deleted uuids, subscribe, and set `lastSyncTime`.  A
rejection anywhere aborts the block with no local-state write. -/
def syncBody (s : StoreState) (env : FirebaseEnv) (now : Int) :
    Except Unit StoreState :=
  if syncThrows s env then Except.error ()
  else Except.ok
    { properties := syncFinalProperties s env,
      storage := importPropertiesValid (syncFinalProperties s env),
      deletedUuids := [],
      lastSyncTime := some now,
      subscribed := true }

/-- `syncWithFirebase` with its `catch`: a rejected pass is logged and
swallowed ("Continue with local data on sync failure"), leaving the store
state as it was. -/
def syncWithFirebase (s : StoreState) (env : FirebaseEnv) (now : Int) :
    StoreState :=
  match syncBody s env now with
  | Except.ok s2 => s2
  | Except.error _ => s

/-- The `subscribeToFirebaseUpdates` callback: on every delivery, re-merge
the delivered remote set with current localStorage, apply remote deletions,
and overwrite both the in-memory list and localStorage. -/
def handleFirebaseUpdate (s : StoreState) (firebaseProperties : List Property)
    (firebaseDeletedRecords : List DeletedPropertyRecord) : StoreState :=
  let localProperties := s.storage
  let merged := mergeProperties localProperties firebaseProperties
  let final := applyFirebaseDeletions merged firebaseDeletedRecords
  { s with properties := final, storage := importPropertiesValid final }

/-- `StorageService.addDeletedPropertyUuid`: append the uuid to the pending
tombstone list unless it is already there. -/
def addDeletedPropertyUuid (uuids : List String) (uuid : String) : List String :=
  if uuid ∈ uuids then uuids else uuids ++ [uuid]

/-- `deleteProperty(id)` from the properties store: throw when the id is
unknown; otherwise remove the record from localStorage and from the
in-memory list, and when it carries a (truthy) uuid, queue that uuid on the
pending tombstone list.  The follow-up `syncWithFirebase()` call is the
separate `syncWithFirebase` above. -/
def deleteProperty (s : StoreState) (id : String) : Except Unit StoreState :=
  match s.properties.find? (fun p => decide (p.id = id)) with
  | none => Except.error ()
  | some property =>
    Except.ok { s with
      storage := s.storage.filter (fun p => decide (p.id ≠ id)),
      properties := s.properties.filter (fun p => decide (p.id ≠ id)),
      deletedUuids :=
        if property.uuid ≠ ""
        then addDeletedPropertyUuid s.deletedUuids property.uuid
        else s.deletedUuids }

/-- A concrete record for instantiating the theorems below. -/
def sampleRecord (idStr uuidStr : String) (updated : Int) : Property :=
  { id := idStr, uuid := uuidStr, zone := "Centro", price := 1000,
    status := PropertyStatus.available, requirements := [], comments := "",
    link := "", location := "", whatsapp := "", realEstate := "",
    appointmentDate := none, isCalendarScheduled := false, createdAt := 0,
    updatedAt := updated }

def recA : Property := sampleRecord "id-a" "a" 5

/-- A remote revision of `recA` with a strictly newer `updatedAt`. -/
def recA9 : Property := sampleRecord "id-a2" "a" 9

/-- A remote revision of `recA` with the same `updatedAt` but different
content. -/
def recATie : Property := { sampleRecord "id-a3" "a" 5 with zone := "Norte" }

def recB : Property := sampleRecord "id-b" "b" 3

/-- A remote tombstone for `recA`, older than `recA.updatedAt`. -/
def tombA : DeletedPropertyRecord :=
  { uuid := "a", deletedAt := 4, deviceId := "dev2" }

/-- A remote tombstone matching no record used here. -/
def tombC : DeletedPropertyRecord :=
  { uuid := "c", deletedAt := 1, deviceId := "dev2" }

/-- A store holding `recA` and `recB`, never synced. -/
def stateW : StoreState :=
  { properties := [recA, recB], storage := [recA, recB], deletedUuids := [],
    lastSyncTime := none, subscribed := false }

/-- The store after a successful pass of `stateW` against `envTombA`. -/
def stateW2 : StoreState :=
  { properties := [recB], storage := [recB], deletedUuids := [],
    lastSyncTime := some 100, subscribed := true }

/-- The store after `deleteProperty stateW "id-a"`. -/
def stateDel : StoreState :=
  { properties := [recB], storage := [recB], deletedUuids := ["a"],
    lastSyncTime := none, subscribed := false }

/-- A store in the middle of an in-flight mutation: the local edit `recA`
is written locally but its sync pass has not completed. -/
def statePend : StoreState :=
  { properties := [recA], storage := [recA], deletedUuids := [],
    lastSyncTime := some 0, subscribed := true }

/-- A store with a locally created record that the remote has never seen. -/
def stateNewLocal : StoreState :=
  { properties := [recA], storage := [recA], deletedUuids := [],
    lastSyncTime := none, subscribed := false }

/-- An empty local store. -/
def stateEmptyLocal : StoreState :=
  { properties := [], storage := [], deletedUuids := [],
    lastSyncTime := none, subscribed := false }

/-- A remote world with nothing stored and all calls succeeding. -/
def envEmptyRemote : FirebaseEnv :=
  { remoteProperties := [], remoteDeleted := [], pullPropertiesOk := true,
    pullDeletedOk := true, batchCreateOk := true, batchUpdateOk := true,
    batchDeleteOk := true }

/-- A remote world holding only `recA`, all calls succeeding. -/
def envRemoteOnly : FirebaseEnv :=
  { remoteProperties := [recA], remoteDeleted := [], pullPropertiesOk := true,
    pullDeletedOk := true, batchCreateOk := true, batchUpdateOk := true,
    batchDeleteOk := true }

/-- A remote world carrying the tombstone `tombA`, all calls succeeding. -/
def envTombA : FirebaseEnv :=
  { remoteProperties := [], remoteDeleted := [tombA], pullPropertiesOk := true,
    pullDeletedOk := true, batchCreateOk := true, batchUpdateOk := true,
    batchDeleteOk := true }

/-- A remote world whose property pull rejects. -/
def envFail : FirebaseEnv :=
  { remoteProperties := [], remoteDeleted := [], pullPropertiesOk := false,
    pullDeletedOk := true, batchCreateOk := true, batchUpdateOk := true,
    batchDeleteOk := true }

/-! ### Lemmas about the uuid-keyed map embedding -/

def mapKeys (m : List Property) : List String := m.map (fun p => p.uuid)

theorem mapGet_mapSet (m : List Property) (p : Property) (u : String) :
    mapGet (mapSet m p) u = if p.uuid = u then some p else mapGet m u := by
  induction m with
  | nil => simp [mapSet, mapGet]
  | cons q rest ih =>
      by_cases hq : q.uuid = p.uuid
      · by_cases hu : p.uuid = u
        · simp [mapSet, mapGet, hq, hu]
        · simp [mapSet, mapGet, hq, hu]
      · by_cases hu : q.uuid = u
        · have hpu : p.uuid ≠ u := fun h => hq (hu.trans h.symm)
          have hup : u ≠ p.uuid := fun h => hpu h.symm
          simp [mapSet, mapGet, hq, hu, hpu, hup]
        · simp [mapSet, mapGet, hq, hu, ih]

/-- What one `Map.set` pass does to the key at `u`, folded over a list. -/
def lastStep (u : String) (acc : Option Property) (p : Property) :
    Option Property :=
  if p.uuid = u then some p else acc

/-- What one `mergeStep` does to the key at `u`, folded over a list. -/
def lwwStep (u : String) (acc : Option Property) (p : Property) :
    Option Property :=
  if p.uuid = u then
    match acc with
    | none => some p
    | some existing =>
        if p.updatedAt > existing.updatedAt then some p else some existing
  else acc

theorem mapGet_foldl_mapSet (l : List Property) (m : List Property)
    (u : String) :
    mapGet (l.foldl mapSet m) u = l.foldl (lastStep u) (mapGet m u) := by
  induction l generalizing m with
  | nil => rfl
  | cons p rest ih =>
      rw [List.foldl_cons, List.foldl_cons, ih, mapGet_mapSet]
      rfl

theorem mapGet_foldl_mergeStep (r : List Property) (m : List Property)
    (u : String) :
    mapGet (r.foldl mergeStep m) u = r.foldl (lwwStep u) (mapGet m u) := by
  induction r generalizing m with
  | nil => rfl
  | cons p rest ih =>
      rw [List.foldl_cons, List.foldl_cons, ih]
      congr 1
      unfold mergeStep lwwStep
      by_cases hpu : p.uuid = u
      · subst hpu
        cases h : mapGet m p.uuid with
        | none => simp [h, mapGet_mapSet]
        | some existing =>
            by_cases hlt : p.updatedAt > existing.updatedAt
            · simp [h, hlt, mapGet_mapSet]
            · simp [h, hlt]
      · cases h : mapGet m p.uuid with
        | none => simp [h, mapGet_mapSet, hpu]
        | some existing =>
            by_cases hlt : p.updatedAt > existing.updatedAt
            · simp [h, hlt, mapGet_mapSet, hpu]
            · simp [h, hlt, hpu]

theorem mapKeys_nil : mapKeys [] = [] := rfl

theorem mapKeys_cons (q : Property) (rest : List Property) :
    mapKeys (q :: rest) = q.uuid :: mapKeys rest := rfl

theorem mapKeys_mapSet (m : List Property) (p : Property) :
    mapKeys (mapSet m p) =
      if p.uuid ∈ mapKeys m then mapKeys m else mapKeys m ++ [p.uuid] := by
  induction m with
  | nil => simp [mapSet, mapKeys_nil, mapKeys_cons]
  | cons q rest ih =>
      by_cases hq : q.uuid = p.uuid
      · have hmem : p.uuid ∈ mapKeys (q :: rest) := by
          rw [mapKeys_cons]
          exact List.mem_cons.mpr (Or.inl hq.symm)
        have hset : mapSet (q :: rest) p = p :: rest := by simp [mapSet, hq]
        rw [if_pos hmem, hset, mapKeys_cons, mapKeys_cons, hq]
      · have hne : p.uuid ≠ q.uuid := fun h => hq h.symm
        have hset : mapSet (q :: rest) p = q :: mapSet rest p := by
          simp [mapSet, hq]
        rw [hset, mapKeys_cons, ih, mapKeys_cons]
        by_cases hm : p.uuid ∈ mapKeys rest
        · rw [if_pos hm, if_pos (List.mem_cons.mpr (Or.inr hm))]
        · rw [if_neg hm, if_neg (fun hcon => by
            rcases List.mem_cons.mp hcon with h1 | h2
            · exact hne h1
            · exact hm h2)]
          rfl

theorem nodup_mapKeys_mapSet {m : List Property} (p : Property)
    (h : (mapKeys m).Nodup) : (mapKeys (mapSet m p)).Nodup := by
  rw [mapKeys_mapSet]
  by_cases hm : p.uuid ∈ mapKeys m
  · simpa [hm] using h
  · simp only [hm, if_false]
    simp [List.nodup_append, h, hm]

theorem nodup_mapKeys_mergeStep {m : List Property} (p : Property)
    (h : (mapKeys m).Nodup) : (mapKeys (mergeStep m p)).Nodup := by
  unfold mergeStep
  split
  · exact nodup_mapKeys_mapSet p h
  · split
    · exact nodup_mapKeys_mapSet p h
    · exact h

theorem nodup_mapKeys_foldl_mapSet (l : List Property) {m : List Property}
    (h : (mapKeys m).Nodup) : (mapKeys (l.foldl mapSet m)).Nodup := by
  induction l generalizing m with
  | nil => exact h
  | cons p rest ih => exact ih (nodup_mapKeys_mapSet p h)

theorem nodup_mapKeys_snapshotMap (l : List Property) :
    (mapKeys (snapshotMap l)).Nodup :=
  nodup_mapKeys_foldl_mapSet l (by simp [mapKeys])

theorem nodup_mapKeys_foldl_mergeStep (r : List Property) {m : List Property}
    (h : (mapKeys m).Nodup) : (mapKeys (r.foldl mergeStep m)).Nodup := by
  induction r generalizing m with
  | nil => exact h
  | cons p rest ih => exact ih (nodup_mapKeys_mergeStep p h)

theorem nodup_mapKeys_mergeProperties (localProps firebaseProps : List Property) :
    (mapKeys (mergeProperties localProps firebaseProps)).Nodup :=
  nodup_mapKeys_foldl_mergeStep firebaseProps
    (nodup_mapKeys_snapshotMap localProps)

theorem mem_of_mapGet {m : List Property} {u : String} {p : Property}
    (h : mapGet m u = some p) : p ∈ m := by
  induction m with
  | nil => simp [mapGet] at h
  | cons q rest ih =>
      by_cases hq : q.uuid = u
      · simp [mapGet, hq] at h
        exact h ▸ List.mem_cons_self q rest
      · simp [mapGet, hq] at h
        exact List.mem_cons_of_mem q (ih h)

theorem mapGet_eq_none_iff {m : List Property} {u : String} :
    mapGet m u = none ↔ u ∉ mapKeys m := by
  induction m with
  | nil => simp [mapGet, mapKeys]
  | cons q rest ih =>
      by_cases hq : q.uuid = u
      · simp [mapGet, mapKeys, hq]
      · have hq2 : u ≠ q.uuid := fun h => hq h.symm
        simp [mapGet, mapKeys, hq, hq2, ih]

theorem mapGet_self_of_nodup {l : List Property}
    (h : (mapKeys l).Nodup) {p : Property} (hp : p ∈ l) :
    mapGet l p.uuid = some p := by
  induction l with
  | nil => simp at hp
  | cons q rest ih =>
      have hrest : (mapKeys rest).Nodup := (List.nodup_cons.mp h).2
      rcases List.mem_cons.mp hp with hpq | hpr
      · subst hpq
        simp [mapGet]
      · have hqn : q.uuid ∉ mapKeys rest := (List.nodup_cons.mp h).1
        have hne : q.uuid ≠ p.uuid := fun he =>
          hqn (he ▸ List.mem_map_of_mem (fun x => x.uuid) hpr)
        simp [mapGet, hne, ih hrest hpr]

theorem foldl_lastStep_of_not_mem {l : List Property} {u : String}
    (h : u ∉ mapKeys l) (acc : Option Property) :
    l.foldl (lastStep u) acc = acc := by
  induction l generalizing acc with
  | nil => rfl
  | cons p rest ih =>
      rw [mapKeys_cons] at h
      have hp : p.uuid ≠ u := fun he => h (List.mem_cons.mpr (Or.inl he.symm))
      rw [List.foldl_cons]
      rw [show lastStep u acc p = acc by simp [lastStep, hp]]
      exact ih (fun hm => h (List.mem_cons.mpr (Or.inr hm))) acc

theorem foldl_lwwStep_of_not_mem {l : List Property} {u : String}
    (h : u ∉ mapKeys l) (acc : Option Property) :
    l.foldl (lwwStep u) acc = acc := by
  induction l generalizing acc with
  | nil => rfl
  | cons p rest ih =>
      rw [mapKeys_cons] at h
      have hp : p.uuid ≠ u := fun he => h (List.mem_cons.mpr (Or.inl he.symm))
      rw [List.foldl_cons]
      rw [show lwwStep u acc p = acc by simp [lwwStep, hp]]
      exact ih (fun hm => h (List.mem_cons.mpr (Or.inr hm))) acc

theorem foldl_lastStep_eq_mapGet {l : List Property} {u : String}
    (h : (mapKeys l).Nodup) :
    l.foldl (lastStep u) none = mapGet l u := by
  induction l with
  | nil => rfl
  | cons p rest ih =>
      rw [mapKeys_cons, List.nodup_cons] at h
      rw [List.foldl_cons]
      by_cases hp : p.uuid = u
      · rw [show lastStep u none p = some p by simp [lastStep, hp]]
        rw [foldl_lastStep_of_not_mem (hp ▸ h.1) (some p)]
        simp [mapGet, hp]
      · rw [show lastStep u none p = none by simp [lastStep, hp]]
        simp [mapGet, hp, ih h.2]

theorem mapGet_snapshotMap_of_nodup {l : List Property}
    (h : (mapKeys l).Nodup) (u : String) :
    mapGet (snapshotMap l) u = mapGet l u := by
  unfold snapshotMap
  have h0 := mapGet_foldl_mapSet l [] u
  rw [show mapGet ([] : List Property) u = none from rfl] at h0
  rw [h0]
  exact foldl_lastStep_eq_mapGet h

theorem foldl_lwwStep_eq_of_nodup {r : List Property} {u : String}
    (h : (mapKeys r).Nodup) (acc : Option Property) :
    r.foldl (lwwStep u) acc =
      match mapGet r u with
      | none => acc
      | some prop =>
          match acc with
          | none => some prop
          | some existing =>
              if prop.updatedAt > existing.updatedAt
              then some prop else some existing := by
  induction r generalizing acc with
  | nil => rfl
  | cons p rest ih =>
      rw [mapKeys_cons, List.nodup_cons] at h
      rw [List.foldl_cons]
      by_cases hp : p.uuid = u
      · rw [foldl_lwwStep_of_not_mem (hp ▸ h.1) (lwwStep u acc p)]
        simp only [mapGet, hp, if_true, lwwStep, if_pos hp]
      · rw [show lwwStep u acc p = acc by simp [lwwStep, hp]]
        rw [ih h.2 acc]
        simp [mapGet, hp]

/-- The key-level behaviour of `mergeProperties` on valid snapshots: a
record absent on one side is taken from the other; a shared uuid resolves
to the strictly newer record, equal timestamps keeping the local one. -/
theorem mergeProperties_mapGet (localProps firebaseProps : List Property)
    (hl : (mapKeys localProps).Nodup) (hr : (mapKeys firebaseProps).Nodup)
    (u : String) :
    mapGet (mergeProperties localProps firebaseProps) u =
      match mapGet localProps u, mapGet firebaseProps u with
      | none, none => none
      | some existing, none => some existing
      | none, some prop => some prop
      | some existing, some prop =>
          if prop.updatedAt > existing.updatedAt
          then some prop else some existing := by
  unfold mergeProperties
  rw [mapGet_foldl_mergeStep, mapGet_snapshotMap_of_nodup hl,
    foldl_lwwStep_eq_of_nodup hr]
  cases mapGet localProps u <;> cases mapGet firebaseProps u <;> rfl

theorem mapSet_eq_append {m : List Property} {p : Property}
    (h : p.uuid ∉ mapKeys m) : mapSet m p = m ++ [p] := by
  induction m with
  | nil => rfl
  | cons q rest ih =>
      rw [mapKeys_cons] at h
      have hq : q.uuid ≠ p.uuid := fun he =>
        h (List.mem_cons.mpr (Or.inl he.symm))
      have hrest : p.uuid ∉ mapKeys rest := fun hm =>
        h (List.mem_cons.mpr (Or.inr hm))
      simp [mapSet, hq, ih hrest]

theorem foldl_mapSet_eq_append {l : List Property} {m : List Property}
    (hdisj : ∀ u ∈ mapKeys l, u ∉ mapKeys m) (hl : (mapKeys l).Nodup) :
    l.foldl mapSet m = m ++ l := by
  induction l generalizing m with
  | nil => simp
  | cons p rest ih =>
      rw [mapKeys_cons, List.nodup_cons] at hl
      have hp : p.uuid ∉ mapKeys m :=
        hdisj p.uuid (by rw [mapKeys_cons]; exact List.mem_cons_self _ _)
      rw [List.foldl_cons, mapSet_eq_append hp]
      rw [ih ?hdisj hl.2]
      · simp
      case hdisj =>
        intro u hu
        have h1 : u ∉ mapKeys m :=
          hdisj u (by rw [mapKeys_cons]; exact List.mem_cons.mpr (Or.inr hu))
        have h2 : u ≠ p.uuid := fun he => hl.1 (he ▸ hu)
        intro hcon
        rw [show mapKeys (m ++ [p]) = mapKeys m ++ [p.uuid] by
          simp [mapKeys]] at hcon
        rcases List.mem_append.mp hcon with hc | hc
        · exact h1 hc
        · exact h2 (by simpa using hc)

theorem snapshotMap_eq_self {l : List Property}
    (h : (mapKeys l).Nodup) : snapshotMap l = l := by
  unfold snapshotMap
  rw [foldl_mapSet_eq_append (by simp [mapKeys_nil]) h]
  simp

theorem applyFirebaseDeletions_nil (props : List Property) :
    applyFirebaseDeletions props [] = props := by
  simp [applyFirebaseDeletions]

theorem mem_applyFirebaseDeletions {props : List Property}
    {dels : List DeletedPropertyRecord} {p : Property} :
    p ∈ applyFirebaseDeletions props dels ↔
      p ∈ props ∧ p.uuid ∉ dels.map (fun d => d.uuid) := by
  simp [applyFirebaseDeletions, List.mem_filter]

theorem mapKeys_filter_sublist (props : List Property)
    (f : Property → Bool) :
    List.Sublist (mapKeys (props.filter f)) (mapKeys props) := by
  unfold mapKeys
  exact (props.filter_sublist).map (fun p => p.uuid)

theorem nodup_mapKeys_filter {props : List Property} (f : Property → Bool)
    (h : (mapKeys props).Nodup) : (mapKeys (props.filter f)).Nodup :=
  List.Nodup.sublist (mapKeys_filter_sublist props f) h

theorem mem_foldl_deletedStep (before : List Property)
    (am : List Property) {init : List String} {u : String}
    (h : u ∈ init) : u ∈ before.foldl (deletedStep am) init := by
  induction before generalizing init with
  | nil => exact h
  | cons p rest ih =>
      rw [List.foldl_cons]
      refine ih ?_
      unfold deletedStep
      split
      · exact List.mem_append_left _ h
      · exact h

theorem foldl_deletedStep_of_present {l : List Property}
    {am : List Property} (h : ∀ p ∈ l, mapGet am p.uuid ≠ none)
    (acc : List String) : l.foldl (deletedStep am) acc = acc := by
  induction l generalizing acc with
  | nil => rfl
  | cons p rest ih =>
      rw [List.foldl_cons]
      rw [show deletedStep am acc p = acc by
        unfold deletedStep
        rw [if_neg]
        intro hcon
        exact h p (List.mem_cons_self _ _) hcon.1]
      exact ih (fun q hq => h q (List.mem_cons_of_mem _ hq)) acc

/-- Diffing a valid snapshot against itself reports nothing to push. -/
theorem identifyLocalChanges_self {l : List Property}
    (h : (mapKeys l).Nodup) :
    identifyLocalChanges l l [] = ⟨[], [], []⟩ := by
  have hmap : ∀ p ∈ l, mapGet (snapshotMap l) p.uuid = some p := by
    intro p hp
    rw [mapGet_snapshotMap_of_nodup h]
    exact mapGet_self_of_nodup h hp
  have h1 : l.filter (fun prop =>
      decide (mapGet (snapshotMap l) prop.uuid = none)) = [] := by
    rw [List.filter_eq_nil_iff]
    intro a ha
    simp [hmap a ha]
  have h2 : l.filter (fun prop =>
      match mapGet (snapshotMap l) prop.uuid with
      | none => false
      | some existing => decide (prop.updatedAt > existing.updatedAt)) = [] := by
    rw [List.filter_eq_nil_iff]
    intro a ha
    simp [hmap a ha]
  have h3 : l.foldl (deletedStep (snapshotMap l)) [] = [] := by
    apply foldl_deletedStep_of_present
    intro p hp
    rw [hmap p hp]
    exact fun hcon => Option.noConfusion hcon
  unfold identifyLocalChanges
  dsimp only
  rw [h1, h2, h3]

/-! ### Claim theorems -/

/-- C1: the merge step keys records by `uuid` (syncId).  A remote record
absent locally is inserted; when a local and a remote record share a uuid,
the merged result holds the one with the strictly greater `updatedAt`, and
on equal `updatedAt` the local copy is kept. -/
theorem merge_keyed_lastWriteWins (localProps firebaseProps : List Property)
    (hl : (mapKeys localProps).Nodup) (hr : (mapKeys firebaseProps).Nodup)
    (u : String) :
    mapGet (mergeProperties localProps firebaseProps) u =
      match mapGet localProps u, mapGet firebaseProps u with
      | none, none => none
      | some existing, none => some existing
      | none, some prop => some prop
      | some existing, some prop =>
          if prop.updatedAt > existing.updatedAt
          then some prop else some existing :=
  mergeProperties_mapGet localProps firebaseProps hl hr u

/-- Witness for C1: a strictly newer remote revision wins, an equal-time
remote revision loses to the local copy, and a remote record absent
locally is inserted. -/
theorem merge_keyed_lastWriteWins_witness :
    mapGet (mergeProperties [recA] [recA9]) "a" = some recA9 ∧
    mapGet (mergeProperties [recA] [recATie]) "a" = some recA ∧
    mapGet (mergeProperties [recA] [recB]) "b" = some recB := by
  refine ⟨?_, ?_, ?_⟩
  · exact (merge_keyed_lastWriteWins [recA] [recA9] (by decide) (by decide)
      "a").trans (by decide)
  · exact (merge_keyed_lastWriteWins [recA] [recATie] (by decide) (by decide)
      "a").trans (by decide)
  · exact (merge_keyed_lastWriteWins [recA] [recB] (by decide) (by decide)
      "b").trans (by decide)

/-- C8: reconciling a valid local snapshot (pairwise-distinct uuids) with
an empty remote snapshot and an empty tombstone set returns the snapshot
unchanged, same records in the same order. -/
theorem reconcile_identity_on_empty_remote (s : List Property)
    (h : (mapKeys s).Nodup) :
    applyFirebaseDeletions (mergeProperties s []) [] = s := by
  have hm : mergeProperties s [] = s := by
    unfold mergeProperties
    rw [List.foldl_nil]
    exact snapshotMap_eq_self h
  rw [hm, applyFirebaseDeletions_nil]

/-- Witness for C8 at a two-record snapshot. -/
theorem reconcile_identity_on_empty_remote_witness :
    applyFirebaseDeletions (mergeProperties [recA, recB] []) [] =
      [recA, recB] :=
  reconcile_identity_on_empty_remote [recA, recB] (by decide)

/-- C9: the list returned by the merge step has pairwise-distinct uuids,
for every pair of input snapshots, duplicates included: the uuid-keyed map
lets a later entry overwrite an earlier one. -/
theorem merge_output_keys_nodup (localProps firebaseProps : List Property) :
    (mapKeys (mergeProperties localProps firebaseProps)).Nodup :=
  nodup_mapKeys_mergeProperties localProps firebaseProps

/-- C10: `stats` returns `averagePrice = 0` on the empty list (the division
is guarded by `total > 0`, so it is never evaluated at count zero), and
otherwise the price sum divided by the record count. -/
theorem stats_averagePrice_guarded :
    (stats []).averagePrice = 0 ∧
    ∀ props : List Property, props ≠ [] →
      (stats props).averagePrice =
        (props.foldl (fun sum p => sum + p.price) 0) / (props.length : Rat) := by
  refine ⟨by decide, ?_⟩
  intro props hne
  unfold stats
  dsimp only
  rw [if_pos (List.length_pos.mpr hne)]

/-- Witness for C10: the empty list and a two-record list. -/
theorem stats_averagePrice_guarded_witness :
    (stats []).averagePrice = 0 ∧
    (stats [recA, recB]).averagePrice =
      (([recA, recB].foldl (fun sum p => sum + p.price) 0) /
        (([recA, recB].length : Nat) : Rat)) :=
  ⟨stats_averagePrice_guarded.1,
    stats_averagePrice_guarded.2 [recA, recB] (by decide)⟩

/-- C2: on a successful sync pass the deletion filter runs after the
timestamp merge (`finalProperties` is `applyFirebaseDeletions` of the merge
output), and every record whose uuid appears among the remote deletion
records is excluded from the final snapshot, with no condition on any
timestamp — in particular also when its `updatedAt` exceeds the
tombstone's `deletedAt`. -/
theorem sync_tombstone_terminal (s : StoreState) (env : FirebaseEnv)
    (now : Int) (s2 : StoreState) (d : DeletedPropertyRecord)
    (hok : syncBody s env now = Except.ok s2) (hd : d ∈ env.remoteDeleted) :
    s2.properties =
      applyFirebaseDeletions (mergeProperties s.storage env.remoteProperties)
        env.remoteDeleted ∧
    ∀ p ∈ s2.properties, p.uuid ≠ d.uuid := by
  unfold syncBody at hok
  split at hok
  · exact Except.noConfusion hok
  · injection hok with h
    subst h
    refine ⟨rfl, ?_⟩
    intro p hp
    replace hp : p ∈ syncFinalProperties s env := hp
    unfold syncFinalProperties at hp
    have hnot := (mem_applyFirebaseDeletions.mp hp).2
    intro he
    exact hnot (he ▸ List.mem_map_of_mem (fun d => d.uuid) hd)

/-- Witness for C2: syncing `stateW` against `envTombA` succeeds; the
tombstone for uuid `a` (whose `deletedAt = 4` is older than
`recA.updatedAt = 5`) removes `recA`, and the surviving record `recB` is
not the tombstoned one. -/
theorem sync_tombstone_terminal_witness :
    syncBody stateW envTombA 100 = Except.ok stateW2 ∧
    recB ∈ stateW2.properties ∧
    recA.updatedAt > tombA.deletedAt ∧
    recB.uuid ≠ tombA.uuid := by
  refine ⟨by decide, by decide, by decide, ?_⟩
  exact (sync_tombstone_terminal stateW envTombA 100 stateW2 tombA
    (by decide) (by decide)).2 recB (by decide)

/-- C6: when a remote call of the sync pass rejects, `syncWithFirebase`
catches the error (it is a total function of the store state and never
surfaces the failure) and returns the store state unchanged; in particular
`lastSyncTime` keeps its old value, so the next pass re-pulls the same
incremental window. -/
theorem sync_failure_swallowed (s : StoreState) (env : FirebaseEnv)
    (now : Int) (herr : syncBody s env now = Except.error ()) :
    syncWithFirebase s env now = s ∧
    (syncWithFirebase s env now).lastSyncTime = s.lastSyncTime := by
  unfold syncWithFirebase
  rw [herr]
  exact ⟨rfl, rfl⟩

/-- Witness for C6: a pass of `stateW` whose property pull rejects leaves
the whole store state, `lastSyncTime` included, unchanged. -/
theorem sync_failure_swallowed_witness :
    syncWithFirebase stateW envFail 100 = stateW ∧
    (syncWithFirebase stateW envFail 100).lastSyncTime =
      stateW.lastSyncTime :=
  sync_failure_swallowed stateW envFail 100 (by decide)

/-- C4: deleting a record queues its uuid on the pending tombstone list;
a sync pass that throws leaves the store (hence that list) unchanged; only
a pass in which every executed remote call succeeded clears the list; and
every uuid still on the list is part of `deletedLocal` — the `toDelete`
set — of the next pass. -/
theorem deleteProperty_tombstone_durable (s : StoreState) (id : String)
    (p : Property) (s1 : StoreState) (env : FirebaseEnv) (now : Int)
    (hfind : s.properties.find? (fun q => decide (q.id = id)) = some p)
    (huuid : p.uuid ≠ "")
    (hdel : deleteProperty s id = Except.ok s1) :
    p.uuid ∈ s1.deletedUuids ∧
    (syncBody s1 env now = Except.error () →
      syncWithFirebase s1 env now = s1) ∧
    (∀ s2, syncBody s1 env now = Except.ok s2 → s2.deletedUuids = []) ∧
    (∀ u, u ∈ s1.deletedUuids → u ∈ (syncChanges s1 env).deletedLocal) := by
  unfold deleteProperty at hdel
  rw [hfind] at hdel
  dsimp only at hdel
  rw [if_pos huuid] at hdel
  injection hdel with h1
  subst h1
  refine ⟨?_, ?_, ?_, ?_⟩
  · show p.uuid ∈ addDeletedPropertyUuid s.deletedUuids p.uuid
    unfold addDeletedPropertyUuid
    split
    · assumption
    · exact List.mem_append_right _ (List.mem_singleton.mpr rfl)
  · intro herr
    unfold syncWithFirebase
    rw [herr]
  · intro s2 hok
    unfold syncBody at hok
    split at hok
    · exact Except.noConfusion hok
    · injection hok with h2
      rw [← h2]
  · intro u hu
    unfold syncChanges identifyLocalChanges
    dsimp only
    exact mem_foldl_deletedStep _ _ hu

/-- Witness for C4: deleting `recA` from `stateW` yields `stateDel` with
uuid `a` queued; a failing pass leaves `stateDel` unchanged; and `a` is in
the `deletedLocal` set of the retried pass. -/
theorem deleteProperty_tombstone_durable_witness :
    "a" ∈ stateDel.deletedUuids ∧
    syncWithFirebase stateDel envFail 100 = stateDel ∧
    "a" ∈ (syncChanges stateDel envFail).deletedLocal := by
  have h := deleteProperty_tombstone_durable stateW "id-a" recA stateDel
    envFail 100 (by decide) (by decide) (by decide)
  exact ⟨h.1, h.2.1 (by decide), h.2.2.2 "a" h.1⟩

/-- C5 counterexample: the claim says a live-subscription delivery is
ignored while a mutation is in flight.  In `statePend` the local edit
`recA` is exactly such an in-flight mutation (its own sync pass has not
run); the handler nevertheless merges the conflicting remote revision
`recA9` and overwrites the in-memory state — the source callback has no
pending-operation check at all. -/
theorem subscription_overwrites_inflight_state :
    handleFirebaseUpdate statePend [recA9] [] ≠ statePend ∧
    (handleFirebaseUpdate statePend [recA9] []).properties = [recA9] := by
  decide

/-- C5 amended: the subscription handler applies every delivery
unconditionally — whenever the delivery carries a record sharing a uuid
with a stored record and bearing a strictly newer `updatedAt`, and the
uuid is not remotely tombstoned, the remote version enters the in-memory
state, in-flight local mutation or not. -/
theorem subscription_applies_conflicting_delivery (s : StoreState)
    (firebaseProperties : List Property)
    (firebaseDeletedRecords : List DeletedPropertyRecord)
    (hs : (mapKeys s.storage).Nodup)
    (hf : (mapKeys firebaseProperties).Nodup) (l r : Property)
    (hl : mapGet s.storage r.uuid = some l)
    (hr2 : mapGet firebaseProperties r.uuid = some r)
    (hnew : r.updatedAt > l.updatedAt)
    (hnotdel : r.uuid ∉ firebaseDeletedRecords.map (fun d => d.uuid)) :
    r ∈ (handleFirebaseUpdate s firebaseProperties
          firebaseDeletedRecords).properties := by
  have hget := mergeProperties_mapGet s.storage firebaseProperties hs hf r.uuid
  rw [hl, hr2] at hget
  dsimp only at hget
  rw [if_pos hnew] at hget
  unfold handleFirebaseUpdate
  dsimp only
  exact mem_applyFirebaseDeletions.mpr ⟨mem_of_mapGet hget, hnotdel⟩

/-- Witness for the amended C5 on the counterexample scenario. -/
theorem subscription_applies_conflicting_delivery_witness :
    recA9 ∈ (handleFirebaseUpdate statePend [recA9] []).properties :=
  subscription_applies_conflicting_delivery statePend [recA9] []
    (by decide) (by decide) recA recA9 (by decide) (by decide) (by decide)
    (by decide)

/-- C7 counterexample: with an empty pending-tombstone list, reconciling
an empty local snapshot with the one-record remote snapshot `[recB]` and
then diffing as the sync pass does yields `newLocal = [recB]`, not empty —
the remote-only record is spuriously classified for re-push. -/
theorem roundTrip_spurious_push :
    identifyLocalChanges []
      (applyFirebaseDeletions (mergeProperties [] [recB]) []) [] ≠
      ⟨[], [], []⟩ := by
  decide

/-- C7 amended: the round-trip produces empty `toCreate`, `toUpdate` and
`toDelete` sets provided the local snapshot is valid and is already
reconciled with the remote snapshot and tombstones (reconciliation is a
fixed point there, e.g. immediately after a completed sync pass). -/
theorem roundTrip_empty_after_reconcile
    (localProps remoteProps : List Property)
    (dels : List DeletedPropertyRecord)
    (hl : (mapKeys localProps).Nodup)
    (hfix : applyFirebaseDeletions (mergeProperties localProps remoteProps)
      dels = localProps) :
    identifyLocalChanges localProps
      (applyFirebaseDeletions (mergeProperties localProps remoteProps) dels)
      [] = ⟨[], [], []⟩ := by
  rw [hfix]
  exact identifyLocalChanges_self hl

/-- Witness for the amended C7: `[recA]` is already reconciled with the
equal-timestamp remote revision `[recATie]` and the unrelated tombstone
`tombC`, and the diff then reports nothing to push. -/
theorem roundTrip_empty_after_reconcile_witness :
    identifyLocalChanges [recA]
      (applyFirebaseDeletions (mergeProperties [recA] [recATie]) [tombC])
      [] = ⟨[], [], []⟩ :=
  roundTrip_empty_after_reconcile [recA] [recATie] [tombC]
    (by decide) (by decide)

/-- C3: the sync pass hands `identifyLocalChanges` the reconciled
`finalProperties`, not the raw remote snapshot.  Consequently a record
created locally while the remote is empty (`stateNewLocal` versus
`envEmptyRemote`) — a local record with no counterpart in the raw remote
snapshot — produces an empty diff and is never pushed as a create, while
a remote-only record (`stateEmptyLocal` versus `envRemoteOnly`) is the one
classified as `newLocal`. -/
theorem sync_diff_uses_reconciled_snapshot :
    syncChanges stateNewLocal envEmptyRemote = ⟨[], [], []⟩ ∧
    syncChanges stateEmptyLocal envRemoteOnly = ⟨[recA], [], []⟩ := by
  decide
